import Mathlib

/-!
Verification of the pico-cs go-client command station client.

The Go sources are shallowly embedded: wire lines and tokens are `List Char`,
Go `strings.Split` / `strconv.ParseUint` / `strconv.ParseInt` are modelled as
executable Lean functions, the reader goroutine of client.go is a fold over
the incoming line sequence, and the payload decoders of board.go,
rbuf/rbuf.go, the flash package and the tcpclient.go parser are translated
function by function.  Machine integers stay in `Nat`/`Int`; the only place
Go word width matters is the `uint64` shift in parseBoard, which is modelled
with an explicit `% 2 ^ 64`.
-/

namespace PicoCs

/-! ## Go primitives -/

/-- Model of `strings.Split(s, sep)` for a one-character separator:
splits around every occurrence of the separator, keeping empty fields,
and yields `[[]]` on empty input, exactly as the Go function does. -/
def goSplitAux (sep : Char) : List Char → List Char → List (List Char)
  | [], acc => [acc.reverse]
  | c :: cs, acc =>
    if c = sep then acc.reverse :: goSplitAux sep cs []
    else goSplitAux sep cs (c :: acc)

/-- `strings.Split` with a single-character separator. -/
def goSplit (sep : Char) (s : List Char) : List (List Char) :=
  goSplitAux sep s []

/-- The ASCII fragment of Go `unicode.IsSpace` (the payloads at issue are
ASCII protocol text). -/
def isGoSpace (c : Char) : Bool :=
  c = ' ' ∨ c = '\t' ∨ c = '\n' ∨ c = (Char.ofNat 11) ∨ c = (Char.ofNat 12) ∨ c = '\r'

/-- Model of `strings.TrimSpace` on ASCII input. -/
def goTrimSpace (l : List Char) : List Char :=
  ((l.dropWhile isGoSpace).reverse.dropWhile isGoSpace).reverse

/-- The error kinds of Go `strconv`: `ErrSyntax` and `ErrRange`. -/
inductive ParseErrKind where
  | synErr
  | rangeErr
  deriving DecidableEq, Repr

/-- Model of Go `*strconv.NumError`: the function name, the offending
literal, and the underlying kind.  Note that the struct has no field for a
position or field index. -/
structure NumError where
  fn : String
  num : List Char
  kind : ParseErrKind
  deriving DecidableEq, Repr

/-- Text of the two `strconv` error kinds. -/
def kindText : ParseErrKind → String
  | .synErr => "invalid syntax"
  | .rangeErr => "value out of range"

/-- Model of `(*strconv.NumError).Error()`:
`strconv.<fn>: parsing "<num>": <kind>`. -/
def numErrMessage (e : NumError) : List Char :=
  ("strconv." ++ e.fn ++ ": parsing \x22").data ++ e.num
    ++ ("\x22: " ++ kindText e.kind).data

/-- Value of one digit character under a given base, as in Go strconv
(digits, then lower-case letters, then upper-case letters). -/
def digitVal (base : Nat) (c : Char) : Option Nat :=
  let d : Option Nat :=
    if '0' ≤ c ∧ c ≤ '9' then some (c.toNat - '0'.toNat)
    else if 'a' ≤ c ∧ c ≤ 'z' then some (c.toNat - 'a'.toNat + 10)
    else if 'A' ≤ c ∧ c ≤ 'Z' then some (c.toNat - 'A'.toNat + 10)
    else none
  match d with
  | some v => if v < base then some v else none
  | none => none

def parseDigitsAux (base : Nat) (acc : Nat) : List Char → Option Nat
  | [] => some acc
  | c :: cs =>
    match digitVal base c with
    | none => none
    | some v => parseDigitsAux base (acc * base + v) cs

/-- Digit-string value: `none` on an empty string or any non-digit
character, as in Go strconv with an explicit base (no prefixes, no
underscores, no sign). -/
def parseDigits (base : Nat) (l : List Char) : Option Nat :=
  match l with
  | [] => none
  | _ => parseDigitsAux base 0 l

/-- Model of `strconv.ParseUint(s, base, bitSize)`; `bitSize = 0` means the
platform word, 64 bits.  A value exceeding the width yields `ErrRange` (the
numeric result Go returns alongside the range error is dropped since every
caller in this repository discards it). -/
def goParseUint (base bits : Nat) (s : List Char) : Except NumError Nat :=
  let bn := if bits = 0 then 64 else bits
  match parseDigits base s with
  | none => .error ⟨"ParseUint", s, .synErr⟩
  | some n =>
    if n > 2 ^ bn - 1 then .error ⟨"ParseUint", s, .rangeErr⟩ else .ok n

/-- Model of `strconv.ParseInt(s, base, bitSize)`: an optional sign followed
by digits, range-checked against the signed width. -/
def goParseInt (base bits : Nat) (s : List Char) : Except NumError Int :=
  let bn := if bits = 0 then 64 else bits
  let (neg, digits) :=
    match s with
    | '+' :: r => (false, r)
    | '-' :: r => (true, r)
    | r => (false, r)
  match parseDigits base digits with
  | none => .error ⟨"ParseInt", s, .synErr⟩
  | some un =>
    if neg then
      if un > 2 ^ (bn - 1) then .error ⟨"ParseInt", s, .rangeErr⟩
      else .ok (-(un : Int))
    else
      if un ≥ 2 ^ (bn - 1) then .error ⟨"ParseInt", s, .rangeErr⟩
      else .ok (un : Int)

/-! ## client.go: tags, error table, line codec -/

/-- The five reply tag characters scanned by `Client.parseReply`
(`tagSuccess`, `tagNoSuccess`, `tagMulti`, `tagEOR`, `tagPush`). -/
def tags : List Char := ['=', '?', '-', '.', '!']

/-- `replyKind` of client.go. -/
inductive ReplyKind where
  | rkNone
  | rkSingle
  | rkMulti
  | rkEOR
  | rkPush
  | rkError
  deriving DecidableEq, Repr

/-- The kind assigned to each tag character. -/
def kindOfTag (c : Char) : ReplyKind :=
  if c = '=' then .rkSingle
  else if c = '?' then .rkError
  else if c = '-' then .rkMulti
  else if c = '.' then .rkEOR
  else if c = '!' then .rkPush
  else .rkNone

/-- Model of `Client.parseReply`: scan the line for the first occurrence of
a tag character; the payload is everything after the tag (nothing for the
end-of-reply tag); a line with no tag is `rkNone` with empty payload. -/
def parseReply : List Char → ReplyKind × List Char
  | [] => (.rkNone, [])
  | c :: rest =>
    if c = '=' then (.rkSingle, rest)
    else if c = '?' then (.rkError, rest)
    else if c = '-' then (.rkMulti, rest)
    else if c = '.' then (.rkEOR, [])
    else if c = '!' then (.rkPush, rest)
    else parseReply rest

/-- The command station error values declared in client.go.  The source
declares exactly these eight `errors.New` values. -/
inductive CSError where
  | invCmd
  | invPrm
  | invNumPrm
  | noData
  | noChange
  | invGpio
  | notImpl
  | unknown
  deriving DecidableEq, Repr

/-- The `errors.New` message of each command station error. -/
def errText : CSError → String
  | .invCmd => "invalid command"
  | .invPrm => "invalid parameter"
  | .invNumPrm => "invalid number of parameters"
  | .noData => "no data"
  | .noChange => "no change"
  | .invGpio => "invalid GPIO"
  | .notImpl => "not implemented"
  | .unknown => "unknown error"

/-- All constructors of `CSError`. -/
def allCSErrors : List CSError :=
  [.invCmd, .invPrm, .invNumPrm, .noData, .noChange, .invGpio, .notImpl, .unknown]

/-- The `errorMap` table of client.go: wire token to error value.  The
`unknown` error is deliberately absent: it is the reader fallback. -/
def errorMap : List (List Char × CSError) :=
  [("invcmd".data, .invCmd),
   ("invprm".data, .invPrm),
   ("invnumprm".data, .invNumPrm),
   ("nodata".data, .noData),
   ("nochange".data, .noChange),
   ("invgpio".data, .invGpio),
   ("notimpl".data, .notImpl)]

/-- The reader lookup `errorMap[msg]` with the `ErrUnknown` fallback
(client.go lines 189 to 193). -/
def csLookup (msg : List Char) : CSError :=
  match errorMap.lookup msg with
  | some e => e
  | none => .unknown

/-! ## client.go: the reader goroutine -/

/-- A value sent on the reply channel: a single string reply, a multi
string-slice reply, or an error value. -/
inductive ReplyV where
  | singleV (msg : List Char)
  | multiV (msgs : List (List Char))
  | errV (e : CSError)
  deriving DecidableEq, Repr

/-- One observable output of the reader goroutine: a send on the reply
channel or a send on the push channel. -/
inductive ROut where
  | reply (v : ReplyV)
  | push (msg : List Char)
  deriving DecidableEq, Repr

/-- The local state of the reader goroutine together with the one Client
field the shutdown path reads.  `lastReadErr` is declared in the `Client`
struct and consulted by `Client.read`, but no statement anywhere in
client.go assigns it (the scanner loop carries only a
`TODO check scanner.Error()` comment), so every transition below leaves it
untouched, exactly as the source does. -/
structure ClientState where
  multi : Bool
  multiMsg : List (List Char)
  lastReadErr : Option (List Char)
  deriving DecidableEq, Repr

/-- The state of a fresh client: Go zero values (`multi = false`, a nil
slice, a nil error). -/
def newClientState : ClientState := ⟨false, [], none⟩

/-- One iteration of the scanner loop of `Client.reader` on one line. -/
def readerStep (s : ClientState) (line : List Char) : ClientState × List ROut :=
  match parseReply line with
  | (.rkError, msg) => (s, [.reply (.errV (csLookup msg))])
  | (.rkSingle, msg) => (s, [.reply (.singleV msg)])
  | (.rkPush, msg) => (s, [.push msg])
  | (.rkMulti, msg) =>
    if s.multi then ({ s with multiMsg := s.multiMsg ++ [msg] }, [])
    else ({ s with multi := true, multiMsg := [msg] }, [])
  | (.rkEOR, _) => ({ s with multi := false }, [.reply (.multiV s.multiMsg)])
  | (.rkNone, _) => (s, [])

/-- Run the reader over a line sequence from a given state, collecting the
channel sends in order. -/
def runReaderFrom (s : ClientState) : List (List Char) → ClientState × List ROut
  | [] => (s, [])
  | line :: more =>
    let p := readerStep s line
    let q := runReaderFrom p.1 more
    (q.1, p.2 ++ q.2)

/-- Reader state after a line sequence, from a fresh client. -/
def runState (lines : List (List Char)) : ClientState :=
  (runReaderFrom newClientState lines).1

/-- Channel sends produced by a line sequence, from a fresh client. -/
def runOutputs (lines : List (List Char)) : List ROut :=
  (runReaderFrom newClientState lines).2

/-- Model of `Client.read` at the moment the reply channel is found closed:
client.go returns `nil, c.lastReadErr` (value nil together with whatever
error is stored, which is never anything). -/
def readOnClosed (c : ClientState) : Option ReplyV × Option (List Char) :=
  (none, c.lastReadErr)

/-! ## client.go: `Client.write` (command serialization) -/

/-- The dynamic type of one `any` argument reaching `Client.write`.  The
public operations pass `uint`, `bool` and `byte` values, and the toggle
variants pass the `charToggle` constant, a Go string. -/
inductive GoArg where
  | u (n : Nat)
  | b (v : Bool)
  | byteArg (v : Nat)
  | strArg (s : List Char)
  deriving DecidableEq, Repr

/-- `formatBool` of client.go: `t` or `f`. -/
def formatBool (v : Bool) : Char := if v then 't' else 'f'

/-- Decimal text of an unsigned integer, `strconv.FormatUint(n, 10)`. -/
def natDecimal (n : Nat) : List Char := (Nat.repr n).data

/-- The bytes one argument contributes inside the type switch of
`Client.write`: a `uint` as decimal text, a `bool` as one marker character,
a `byte` as the raw byte itself, and anything else (in particular the
string toggle token) falls to the `default` branch, which panics —
modelled as `none`. -/
def writeArg : GoArg → Option (List Char)
  | .u n => some (natDecimal n)
  | .b v => some [formatBool v]
  | .byteArg v => some [Char.ofNat v]
  | .strArg _ => none

/-- The argument loop of `Client.write`: each argument is preceded by one
space separator; a panic in any iteration aborts the whole write. -/
def writeArgs : List GoArg → Option (List Char)
  | [] => some []
  | a :: more =>
    match writeArg a, writeArgs more with
    | some t, some rest => some (' ' :: t ++ rest)
    | _, _ => none

/-- Model of `Client.write cmd args`: the line put on the wire —
`tagStart`, the command code, the separated arguments, and the `\r`
terminator — or `none` when the argument type switch panics. -/
def writeLine (cmd : List Char) (args : List GoArg) : Option (List Char) :=
  match writeArgs args with
  | some argText => some ('+' :: cmd ++ argText ++ ['\r'])
  | none => none

/-- The line `Client.ToggleLocoDir` asks `Client.write` to produce:
command code `ld`, the address, and the `charToggle` string `~`. -/
def toggleLocoDirLine (addr : Nat) : Option (List Char) :=
  writeLine "ld".data [.u addr, .strArg "~".data]

/-! ## board.go: the board decoder -/

/-- `BoardType` of board.go. -/
inductive BoardType where
  | btUnknown
  | btPico
  | btPicoW
  deriving DecidableEq, Repr

/-- The `btValues` map of board.go. -/
def btValues : List (List Char × BoardType) :=
  [("pico".data, .btPico), ("pico_w".data, .btPicoW)]

/-- The Go map read `btValues[values[0]]`: a missing key yields the zero
value of `BoardType`, which is `BtUnknown`. -/
def btLookup (s : List Char) : BoardType :=
  match btValues.lookup s with
  | some t => t
  | none => .btUnknown

/-- Decoded board value: type and the 64-bit unique id. -/
structure Board where
  type : BoardType
  id : Nat
  deriving DecidableEq, Repr

/-- Errors of `parseBoard`. -/
inductive BoardErr where
  | badCount (n : Nat)
  | numError (e : NumError)
  deriving DecidableEq, Repr

/-- The id-assembly loop of `parseBoard`: eight hex byte fields, each
`strconv.ParseUint(v, 16, 8)`, shifted into a `uint64` from shift 56
downwards and or-ed together; the shift stays in range so the explicit
`% 2 ^ 64` only records the Go word width. -/
def boardIdLoop (shift acc : Nat) : List (List Char) → Except NumError Nat
  | [] => .ok acc
  | v :: vs =>
    match goParseUint 16 8 v with
    | .error e => .error e
    | .ok u => boardIdLoop (shift - 8) (acc ||| (u <<< shift) % 2 ^ 64) vs

/-- Model of `parseBoard` (board.go): split on spaces, require exactly
`numBoardValue = 9` fields, take the board type from the unvalidated map
lookup of the first field, and assemble the id from the remaining eight
fields big-endian. -/
def parseBoard (s : List Char) : Except BoardErr Board :=
  let values := goSplit ' ' s
  if values.length = 9 then
    match boardIdLoop 56 0 values.tail with
    | .error e => .error (.numError e)
    | .ok n => .ok ⟨btLookup (values.headD []), n⟩
  else .error (.badCount values.length)

/-! ## rbuf/rbuf.go: the refresh buffer decoder -/

/-- Insertion of one element into a sorted list placing it after all
elements it is not strictly less than — the stable order produced by the
insertion sort that `golang.org/x/exp/slices.SortFunc` (pdqsort) runs on
the short slices at issue here (length below 12). -/
def goOrderedInsert (less : α → α → Bool) (x : α) : List α → List α
  | [] => [x]
  | y :: ys => if less x y then x :: y :: ys else y :: goOrderedInsert less x ys

/-- Stable insertion sort, the behaviour of `slices.SortFunc` on short
slices. -/
def goInsertionSort (less : α → α → Bool) (l : List α) : List α :=
  l.foldl (fun acc x => goOrderedInsert less x acc) []

/-- The comparison `rbuf.Parse` sorts with: `a[Idx] < b[Idx]` where
`Idx = 0`. -/
def entryLess (a b : List Nat) : Bool := a.headD 0 < b.headD 0

/-- A refresh buffer entry of rbuf.go is a fixed array of
`NumBytes = 19` bytes; the zero value is all zeros. -/
def zeroEntry : List Nat := List.replicate 19 0

/-- Errors of `rbuf.Parse`. -/
inductive RbufErr where
  | badNumLines (n : Nat)
  | badNumValues (n : Nat)
  | badNumEntryValues (n : Nat)
  | numError (e : NumError)
  deriving DecidableEq, Repr

/-- `rbuf.Buffer`: header indices and the entry array. -/
structure RBuffer where
  first : Int
  next : Int
  entries : List (List Nat)
  deriving DecidableEq, Repr

/-- The per-entry field loop of `rbuf.Parse`: each of the 19 fields is
`strconv.ParseUint(v, 10, 8)` and the first failure is returned at once. -/
def parseEntryValues : List (List Char) → Except NumError (List Nat)
  | [] => .ok []
  | v :: vs =>
    match goParseUint 10 8 v with
    | .error e => .error e
    | .ok b =>
      match parseEntryValues vs with
      | .error e => .error e
      | .ok rest => .ok (b :: rest)

/-- The entry loop of `rbuf.Parse`, translated exactly: the entry array is
preallocated to its final length filled with zero entries, the line at
position `k` is decoded into slot `k`, and after every line the whole
array — still-unfilled zero entries included — is sorted by slot index. -/
def rbufLoop (k : Nat) (entries : List (List Nat)) :
    List (List Char) → Except RbufErr (List (List Nat))
  | [] => .ok entries
  | line :: more =>
    let values := goSplit ' ' line
    if values.length = 19 then
      match parseEntryValues values with
      | .error e => .error (.numError e)
      | .ok ent => rbufLoop (k + 1) (goInsertionSort entryLess (entries.set k ent)) more
    else .error (.badNumEntryValues values.length)

/-- Model of `rbuf.Parse`: header line with exactly two
`strconv.ParseInt(v, 10, 0)` fields, then the entry loop over a
preallocated array. -/
def rbufParse (lines : List (List Char)) : Except RbufErr RBuffer :=
  match lines with
  | [] => .error (.badNumLines 0)
  | hdr :: entryLines =>
    match goSplit ' ' hdr with
    | [a, b] =>
      match goParseInt 10 0 a with
      | .error e => .error (.numError e)
      | .ok first =>
        match goParseInt 10 0 b with
        | .error e => .error (.numError e)
        | .ok next =>
          match rbufLoop 0 (List.replicate entryLines.length zeroEntry) entryLines with
          | .error e => .error e
          | .ok entries => .ok ⟨first, next, entries⟩
    | other => .error (.badNumValues other.length)

/-! ## The flash package: the flash dump decoder -/

/-- Errors of `flash.Parse`. -/
inductive FlashErr where
  | badNumLines (n : Nat)
  | badNumValues (n : Nat)
  | numError (e : NumError)
  deriving DecidableEq, Repr

/-- `flash.Flash`: header indices and the concatenated content bytes. -/
structure FlashV where
  readIdx : Nat
  writeIdx : Nat
  pageNo : Nat
  content : List Nat
  deriving DecidableEq, Repr

/-- The inner token loop of `flash.Parse`: each token of one trimmed line
is `strconv.ParseUint(v, 16, 8)`, appended in order, failing on the first
bad token. -/
def flashTokLoop (acc : List Nat) : List (List Char) → Except NumError (List Nat)
  | [] => .ok acc
  | v :: vs =>
    match goParseUint 16 8 v with
    | .error e => .error e
    | .ok b => flashTokLoop (acc ++ [b]) vs

/-- The content-line loop of `flash.Parse`: every line is trimmed, split on
spaces, and its tokens appended to the running content. -/
def flashLoop (acc : List Nat) : List (List Char) → Except FlashErr (List Nat)
  | [] => .ok acc
  | line :: more =>
    match flashTokLoop acc (goSplit ' ' (goTrimSpace line)) with
    | .error e => .error (.numError e)
    | .ok acc2 => flashLoop acc2 more

/-- Model of `flash.Parse`: header line with exactly three
`strconv.ParseUint(v, 10, 0)` fields, then the content loop. -/
def flashParse (lines : List (List Char)) : Except FlashErr FlashV :=
  match lines with
  | [] => .error (.badNumLines 0)
  | hdr :: rest =>
    match goSplit ' ' hdr with
    | [a, b, c] =>
      match goParseUint 10 0 a with
      | .error e => .error (.numError e)
      | .ok readIdx =>
        match goParseUint 10 0 b with
        | .error e => .error (.numError e)
        | .ok writeIdx =>
          match goParseUint 10 0 c with
          | .error e => .error (.numError e)
          | .ok pageNo =>
            match flashLoop [] rest with
            | .error e => .error e
            | .ok content => .ok ⟨readIdx, writeIdx, pageNo, content⟩
    | other => .error (.badNumValues other.length)

/-! ## The `parser` helper used by the client refresh-buffer decoder -/

/-- The mutable state of the `parser` struct: the running field index and
the recorded error index and error.  Each failing field parse OVERWRITES
`errIdx` and `err`, so after a full row the parser holds the error of the
last malformed field, not the first. -/
structure PState where
  idx : Nat
  errIdx : Nat
  err : Option NumError
  deriving DecidableEq, Repr

/-- The parser state right after `reset`. -/
def pInit : PState := ⟨0, 0, none⟩

/-- One `parser.parseInt` / `parseUInt` / `parseByte` call: advance the
index; on failure record this index and error (overwriting any earlier
recording), and let the value default to zero as the Go helpers do. -/
def pStep (st : PState) (r : Except NumError Nat) : Nat × PState :=
  match r with
  | .ok v => (v, { st with idx := st.idx + 1 })
  | .error e => (0, ⟨st.idx + 1, st.idx, some e⟩)

/-- One parser call inside a row fold: run the parse function of this field
on its text, append the value, carry the state. -/
def pFoldStep (acc : List Nat × PState)
    (p : (List Char → Except NumError Nat) × List Char) : List Nat × PState :=
  (acc.1 ++ [(pStep acc.2 (p.1 p.2)).1], (pStep acc.2 (p.1 p.2)).2)

/-- Run the parser over a row: each list element pairs the parse function a
field position uses with the field text, mirroring the fixed sequence of
`p.parseInt() / p.parseUInt() / p.parseByte()` calls in `parseRBuf`
(tcpclient.go).  Returns the decoded values and the final parser state. -/
def parserRun (row : List ((List Char → Except NumError Nat) × List Char)) :
    List Nat × PState :=
  row.foldl pFoldStep ([], pInit)

/-- `(*parser).Error()`: `parser error index <errIdx> <wrapped error>`. -/
def parserErrMessage (st : PState) (e : NumError) : List Char :=
  "parser error index ".data ++ natDecimal st.errIdx ++ [' '] ++ numErrMessage e

/-- Whether an `Except` result is a success. -/
def isOkE : Except ε α → Bool
  | .ok _ => true
  | .error _ => false

/-- The id value the `parseBoard` loop assembles when every field parses
(the error branch value is irrelevant under that hypothesis). -/
def boardIdNum (shift acc : Nat) : List (List Char) → Nat
  | [] => acc
  | v :: vs =>
    match goParseUint 16 8 v with
    | .error _ => 0
    | .ok u => boardIdNum (shift - 8) (acc ||| (u <<< shift) % 2 ^ 64) vs

/-! ## Reader lemmas -/

theorem runReaderFrom_append (s : ClientState) (xs ys : List (List Char)) :
    runReaderFrom s (xs ++ ys) =
      ((runReaderFrom (runReaderFrom s xs).1 ys).1,
        (runReaderFrom s xs).2 ++ (runReaderFrom (runReaderFrom s xs).1 ys).2) := by
  induction xs generalizing s with
  | nil => simp [runReaderFrom]
  | cons l ls ih =>
    simp only [List.cons_append, runReaderFrom, List.append_eq]
    rw [ih]
    simp [List.append_assoc]

theorem readerStep_multiMsg_of_not_multi (s : ClientState) (line : List Char)
    (h : (parseReply line).1 ≠ .rkMulti) :
    (readerStep s line).1.multiMsg = s.multiMsg := by
  unfold readerStep
  rcases hp : parseReply line with ⟨k, msg⟩
  rw [hp] at h
  cases k <;> simp_all

theorem readerStep_lastReadErr (s : ClientState) (line : List Char) :
    (readerStep s line).1.lastReadErr = s.lastReadErr := by
  unfold readerStep
  rcases hp : parseReply line with ⟨k, msg⟩
  cases k <;> simp_all
  split <;> simp

theorem runReaderFrom_lastReadErr (s : ClientState) (lines : List (List Char)) :
    (runReaderFrom s lines).1.lastReadErr = s.lastReadErr := by
  induction lines generalizing s with
  | nil => simp [runReaderFrom]
  | cons l ls ih =>
    simp only [runReaderFrom]
    rw [ih, readerStep_lastReadErr]

theorem runReaderFrom_multiMsg_of_no_multi (s : ClientState) (lines : List (List Char))
    (h : ∀ l ∈ lines, (parseReply l).1 ≠ .rkMulti) :
    (runReaderFrom s lines).1.multiMsg = s.multiMsg := by
  induction lines generalizing s with
  | nil => simp [runReaderFrom]
  | cons l ls ih =>
    simp only [runReaderFrom]
    rw [ih _ (fun x hx => h x (List.mem_cons_of_mem _ hx)),
      readerStep_multiMsg_of_not_multi _ _ (h l (List.mem_cons_self _ _))]

theorem lookup_none_of_not_mem_keys {β : Type} (t : List Char) :
    ∀ l : List (List Char × β), t ∉ l.map Prod.fst → l.lookup t = none
  | [], _ => rfl
  | (k, v) :: ps, h => by
    simp only [List.map_cons, List.mem_cons, not_or] at h
    rw [List.lookup_cons]
    have hb : (t == k) = false := beq_eq_false_iff_ne.mpr h.1
    rw [hb]
    exact lookup_none_of_not_mem_keys t ps h.2

theorem parseReply_eor : parseReply ['.'] = (.rkEOR, []) := by decide

theorem parseReply_multi (m : List Char) : parseReply ('-' :: m) = (.rkMulti, m) := by
  simp [parseReply]

/-! ## Claim theorems -/

/-- Claim C1, counterexample.  The reader does not clear the accumulator at
an end-of-reply line: after the history `-a`, `.`, a second `.` line — an
end-of-reply with no `-` fragment since the last emitted reply — re-emits
the stale list `["a"]` instead of the empty list the claim requires. -/
theorem c1_counterexample :
    runOutputs [['-', 'a'], ['.'], ['.']] =
      [.reply (.multiV [['a']]), .reply (.multiV [['a']])] ∧
    ReplyV.multiV [['a']] ≠ ReplyV.multiV [] := by
  constructor
  · rfl
  · decide

/-- Claim C1, amended.  Feeding the reply router `-a`, `-b`, `-c`, `.`
produces exactly one multi-value Reply `["a","b","c"]`.  An end-of-reply
line `.` preceded by no `-` fragment line anywhere in the reader history
emits the empty list.  The end-of-reply transition clears only the
collecting flag and leaves the accumulator in place; the accumulator is
reset at the first fragment of the next multi sequence, so a `.` with no
fragments since the last emitted multi reply re-emits that same list. -/
theorem c1_multi_accumulation :
    runOutputs [['-', 'a'], ['-', 'b'], ['-', 'c'], ['.']] =
      [.reply (.multiV [['a'], ['b'], ['c']])] ∧
    (∀ lines : List (List Char), (∀ l ∈ lines, (parseReply l).1 ≠ .rkMulti) →
      runOutputs (lines ++ [['.']]) = runOutputs lines ++ [.reply (.multiV [])]) ∧
    (∀ lines : List (List Char),
      (runState (lines ++ [['.']])).multi = false ∧
      (runState (lines ++ [['.']])).multiMsg = (runState lines).multiMsg) ∧
    (∀ (lines : List (List Char)) (m : List Char), (runState lines).multi = false →
      (runState (lines ++ [('-' :: m)])).multiMsg = [m]) := by
  refine ⟨by rfl, ?_, ?_, ?_⟩
  · intro lines h
    have hmsg : (runReaderFrom newClientState lines).1.multiMsg = [] := by
      rw [runReaderFrom_multiMsg_of_no_multi _ _ h]
      rfl
    simp only [runOutputs, runReaderFrom_append]
    simp [runReaderFrom, readerStep, parseReply_eor, hmsg]
  · intro lines
    simp only [runState, runReaderFrom_append]
    constructor
    · simp [runReaderFrom, readerStep, parseReply_eor]
    · simp [runReaderFrom, readerStep, parseReply_eor]
  · intro lines m h
    simp only [runState] at h
    simp only [runState, runReaderFrom_append]
    simp [runReaderFrom, readerStep, parseReply_multi, h]

/-- Claim C1 witness: the no-fragment-history part instantiated at the
concrete history `["=x"]`, and the reset-at-first-fragment part at the same
history. -/
theorem c1_witness :
    runOutputs ([['=', 'x']] ++ [['.']]) = runOutputs [['=', 'x']] ++ [.reply (.multiV [])] ∧
    (runState ([['=', 'x']] ++ [('-' :: ['z'])])).multiMsg = [['z']] := by
  refine ⟨c1_multi_accumulation.2.1 [['=', 'x']] (by decide), ?_⟩
  exact c1_multi_accumulation.2.2.2 [['=', 'x']] ['z'] (by decide)

/-- Claim C2: after ANY line history the reader terminates on EOF without
ever having stored a read error — client.go never assigns `lastReadErr`
(the scanner loop holds only a TODO comment) — so a blocked or subsequent
`Client.read` on the closed reply channel returns value nil together with
error nil: a success-shaped result, not the last recorded transport read
error and not a generic closed-connection error. -/
theorem c2_closed_channel_no_error (lines : List (List Char)) :
    readOnClosed (runState lines) = (none, none) := by
  unfold readOnClosed runState
  rw [runReaderFrom_lastReadErr]
  rfl

/-- Claim C3, counterexample.  The claimed closed enumeration lists a
not-executed member and an I/O-error member, but client.go declares no such
error values: no member of the actual enumeration carries either text. -/
theorem c3_counterexample :
    "not executed" ∉ allCSErrors.map errText ∧
    "I/O error" ∉ allCSErrors.map errText := by
  decide

/-- Claim C3, amended.  The device error-code mapping is a fixed table over
a closed enumeration of EIGHT members — invalid command, invalid parameter,
invalid number of parameters, no data, no change, invalid GPIO, not
implemented, and unknown (no not-executed and no I/O-error member): the
wire token `invcmd` maps to the invalid-command error, each other listed
token maps to its listed error, and every unrecognized token maps to the
unknown error. -/
theorem c3_error_mapping :
    csLookup "invcmd".data = .invCmd ∧ csLookup "invprm".data = .invPrm ∧
    csLookup "invnumprm".data = .invNumPrm ∧ csLookup "nodata".data = .noData ∧
    csLookup "nochange".data = .noChange ∧ csLookup "invgpio".data = .invGpio ∧
    csLookup "notimpl".data = .notImpl ∧
    (∀ t : List Char, t ∉ errorMap.map Prod.fst → csLookup t = .unknown) ∧
    (∀ e : CSError, e ∈ allCSErrors) ∧
    allCSErrors.map errText =
      ["invalid command", "invalid parameter", "invalid number of parameters",
       "no data", "no change", "invalid GPIO", "not implemented", "unknown error"] := by
  refine ⟨by decide, by decide, by decide, by decide, by decide, by decide, by decide,
    ?_, ?_, by decide⟩
  · intro t ht
    have hn : errorMap.lookup t = none := lookup_none_of_not_mem_keys t errorMap ht
    simp [csLookup, hn]
  · intro e
    cases e <;> decide

/-- Claim C3 witness: the unrecognized-token case instantiated at the
concrete token `bogus`. -/
theorem c3_witness : csLookup "bogus".data = .unknown :=
  c3_error_mapping.2.2.2.2.2.2.2.1 "bogus".data (by decide)

/-- Claim C4: evaluation at the failing input.  `Client.write` serializes
`uint`, `bool` and `byte` arguments as the claim says (second conjunct),
but its type switch has no string case, so the toggle token `~` passed by
`ToggleLocoDir` falls to the default branch and panics instead of reaching
the wire: the toggle write produces no line at all (first conjunct). -/
theorem c4_toggle_panics :
    toggleLocoDirLine 3 = none ∧
    writeLine "ld".data [.u 3, .b true] = some ("+ld 3 t\r".data) := by
  constructor <;> rfl

/-- Claim C5 helper: a line without any tag character is classified
`rkNone` with empty payload. -/
theorem parseReply_no_tag (buf : List Char) (h : ∀ x ∈ buf, x ∉ tags) :
    parseReply buf = (.rkNone, []) := by
  induction buf with
  | nil => rfl
  | cons c cs ih =>
    have hc := h c (List.mem_cons_self _ _)
    simp only [tags, List.mem_cons, List.not_mem_nil, or_false, not_or] at hc
    obtain ⟨h1, h2, h3, h4, h5⟩ := hc
    simp only [parseReply, if_neg h1, if_neg h2, if_neg h3, if_neg h4, if_neg h5]
    exact ih (fun x hx => h x (List.mem_cons_of_mem _ hx))

/-- Claim C5: the line codec classifies every line by the first occurrence
of one of the tag characters `=`, `?`, `-`, `.`, `!`, with payload equal to
the bytes after that tag (none for `.`), tolerating arbitrary non-tag bytes
before the tag; a line containing no tag is classified `rkNone`, and such a
line leaves the reader state untouched and contributes nothing to any reply
or push channel. -/
theorem c5_line_codec :
    (∀ (pre : List Char) (c : Char) (rest : List Char),
      (∀ x ∈ pre, x ∉ tags) → c ∈ tags →
      parseReply (pre ++ c :: rest) = (kindOfTag c, if c = '.' then [] else rest)) ∧
    (∀ buf : List Char, (∀ x ∈ buf, x ∉ tags) → parseReply buf = (.rkNone, [])) ∧
    (∀ (s : ClientState) (line : List Char), (∀ x ∈ line, x ∉ tags) →
      readerStep s line = (s, [])) := by
  refine ⟨?_, parseReply_no_tag, ?_⟩
  · intro pre c rest hpre hc
    induction pre with
    | nil =>
      simp only [tags, List.mem_cons, List.not_mem_nil, or_false] at hc
      rcases hc with rfl | rfl | rfl | rfl | rfl <;> simp [parseReply, kindOfTag]
    | cons x xs ih =>
      have hx := hpre x (List.mem_cons_self _ _)
      simp only [tags, List.mem_cons, List.not_mem_nil, or_false, not_or] at hx
      obtain ⟨h1, h2, h3, h4, h5⟩ := hx
      simp only [List.cons_append, parseReply,
        if_neg h1, if_neg h2, if_neg h3, if_neg h4, if_neg h5]
      exact ih (fun y hy => hpre y (List.mem_cons_of_mem _ hy))
  · intro s line h
    unfold readerStep
    rw [parseReply_no_tag line h]

/-- Claim C5 witness: instantiated at the line `x=ab` (one junk byte before
the tag), the tagless line `q`, and a reader step on `q`. -/
theorem c5_witness :
    parseReply (['x'] ++ '=' :: ['a', 'b']) =
      (kindOfTag '=', if '=' = '.' then [] else ['a', 'b']) ∧
    parseReply ['q'] = (.rkNone, []) ∧
    readerStep newClientState ['q'] = (newClientState, []) :=
  ⟨c5_line_codec.1 ['x'] '=' ['a', 'b'] (by decide) (by decide),
   c5_line_codec.2.1 ['q'] (by decide),
   c5_line_codec.2.2 newClientState ['q'] (by decide)⟩

/-- Claim C6: decoding the board payload `pico_w 00 11 22 33 44 55 66 77`
succeeds with board type Pico W and the eight hex byte fields assembled
big-endian into the id `0x0011223344556677`. -/
theorem c6_board_decode :
    parseBoard ("pico_w 00 11 22 33 44 55 66 77").data =
      .ok ⟨.btPicoW, 0x0011223344556677⟩ := by
  rfl

/-- Claim C7: evaluation at the failing input.  `rbuf.Parse` sorts the
preallocated entry array INSIDE the entry loop, so with two well-formed
entry lines in reverse index order (indices 1 then 0) the sort moves the
still-unfilled zero entry ahead of slot 1 and the second positional write
overwrites the index-1 entry: the decoder returns the all-zero entry
followed by the index-0 entry instead of the two supplied entries sorted
ascending by index. -/
theorem c7_reverse_order_corrupts :
    rbufParse ["0 0".data,
        "1 0 0 0 0 0 0 0 0 0 0 0 0 0 0 0 0 0 0".data,
        "0 0 5 0 0 0 0 0 0 0 0 0 0 0 0 0 0 0 0".data] =
      .ok ⟨0, 0, [zeroEntry, 0 :: 0 :: 5 :: List.replicate 16 0]⟩ ∧
    ([zeroEntry, 0 :: 0 :: 5 :: List.replicate 16 0] : List (List Nat)) ≠
      [0 :: 0 :: 5 :: List.replicate 16 0, 1 :: List.replicate 18 0] := by
  constructor
  · rfl
  · decide

/-- When every id field parses, the `parseBoard` loop succeeds with the
assembled value. -/
theorem boardIdLoop_eq_ok (vs : List (List Char)) :
    ∀ shift acc, vs.all (fun v => isOkE (goParseUint 16 8 v)) = true →
      boardIdLoop shift acc vs = .ok (boardIdNum shift acc vs) := by
  induction vs with
  | nil => intro shift acc _; rfl
  | cons v vs ih =>
    intro shift acc h
    simp only [List.all_cons, Bool.and_eq_true] at h
    cases hu : goParseUint 16 8 v with
    | error e => rw [hu] at h; simp [isOkE] at h
    | ok u =>
      simp only [boardIdLoop, boardIdNum, hu]
      exact ih _ _ h.2

/-- Claim C10: the board type keyword is never validated.  For every
payload with the expected nine fields whose id fields all parse, the
decoder succeeds and takes the type from the total map lookup (so an
unrecognized first field yields `BtUnknown`); a decode error implies a
wrong field count or an unparseable id field. -/
theorem c10_keyword_unvalidated :
    (∀ s : List Char, (goSplit ' ' s).length = 9 →
      ((goSplit ' ' s).tail.all (fun v => isOkE (goParseUint 16 8 v))) = true →
      parseBoard s =
        .ok ⟨btLookup ((goSplit ' ' s).headD []), boardIdNum 56 0 (goSplit ' ' s).tail⟩) ∧
    (∀ s : List Char, isOkE (parseBoard s) = false →
      (goSplit ' ' s).length ≠ 9 ∨
        ((goSplit ' ' s).tail.all (fun v => isOkE (goParseUint 16 8 v))) = false) ∧
    (∀ s : List Char, (goSplit ' ' s).length = 9 →
      ((goSplit ' ' s).tail.all (fun v => isOkE (goParseUint 16 8 v))) = true →
      (goSplit ' ' s).headD [] ∉ btValues.map Prod.fst →
      parseBoard s = .ok ⟨.btUnknown, boardIdNum 56 0 (goSplit ' ' s).tail⟩) := by
  have hok : ∀ s : List Char, (goSplit ' ' s).length = 9 →
      ((goSplit ' ' s).tail.all (fun v => isOkE (goParseUint 16 8 v))) = true →
      parseBoard s =
        .ok ⟨btLookup ((goSplit ' ' s).headD []), boardIdNum 56 0 (goSplit ' ' s).tail⟩ := by
    intro s hlen hall
    simp only [parseBoard, if_pos hlen, boardIdLoop_eq_ok _ _ _ hall]
  refine ⟨hok, ?_, ?_⟩
  · intro s hbad
    by_cases hlen : (goSplit ' ' s).length = 9
    · by_cases hall : ((goSplit ' ' s).tail.all (fun v => isOkE (goParseUint 16 8 v))) = true
      · rw [hok s hlen hall] at hbad
        simp [isOkE] at hbad
      · exact Or.inr (by simpa using hall)
    · exact Or.inl hlen
  · intro s hlen hall hkey
    rw [hok s hlen hall]
    have : btLookup ((goSplit ' ' s).headD []) = .btUnknown := by
      have hn : btValues.lookup ((goSplit ' ' s).headD []) = none :=
        lookup_none_of_not_mem_keys _ btValues hkey
      unfold btLookup
      rw [hn]
    rw [this]

/-- Claim C10 witness: the unrecognized keyword `bogus` with nine
well-formed fields decodes without error to the Unknown board type. -/
theorem c10_witness :
    parseBoard ("bogus 00 11 22 33 44 55 66 77").data =
      .ok ⟨.btUnknown, 0x0011223344556677⟩ := by
  have h := c10_keyword_unvalidated.2.2 ("bogus 00 11 22 33 44 55 66 77").data
    (by rfl) (by rfl) (by decide)
  exact h.trans (by rfl)

/-! ## Fail-fast lemmas for the payload decoders -/

/-- The `parseBoard` id loop stops at the first malformed field. -/
theorem boardIdLoop_error_at (pre : List (List Char)) :
    ∀ shift acc v post e, pre.all (fun w => isOkE (goParseUint 16 8 w)) = true →
      goParseUint 16 8 v = .error e →
      boardIdLoop shift acc (pre ++ v :: post) = .error e := by
  induction pre with
  | nil =>
    intro shift acc v post e _ hv
    simp only [List.nil_append, boardIdLoop, hv]
  | cons w ws ih =>
    intro shift acc v post e hall hv
    simp only [List.all_cons, Bool.and_eq_true] at hall
    cases hw : goParseUint 16 8 w with
    | error e0 => rw [hw] at hall; simp [isOkE] at hall
    | ok u =>
      simp only [List.cons_append, boardIdLoop, hw]
      exact ih _ _ _ _ _ hall.2 hv

/-- The flash token loop stops at the first malformed token of a line. -/
theorem flashTokLoop_error_at (tpre : List (List Char)) :
    ∀ acc v tpost e, tpre.all (fun w => isOkE (goParseUint 16 8 w)) = true →
      goParseUint 16 8 v = .error e →
      flashTokLoop acc (tpre ++ v :: tpost) = .error e := by
  induction tpre with
  | nil =>
    intro acc v tpost e _ hv
    simp only [List.nil_append, flashTokLoop, hv]
  | cons w ws ih =>
    intro acc v tpost e hall hv
    simp only [List.all_cons, Bool.and_eq_true] at hall
    cases hw : goParseUint 16 8 w with
    | error e0 => rw [hw] at hall; simp [isOkE] at hall
    | ok u =>
      simp only [List.cons_append, flashTokLoop, hw]
      exact ih _ _ _ _ hall.2 hv

/-- The flash token loop succeeds on a line whose tokens all parse. -/
theorem flashTokLoop_ok (toks : List (List Char)) :
    ∀ acc, toks.all (fun w => isOkE (goParseUint 16 8 w)) = true →
      isOkE (flashTokLoop acc toks) = true := by
  induction toks with
  | nil => intro acc _; rfl
  | cons w ws ih =>
    intro acc hall
    simp only [List.all_cons, Bool.and_eq_true] at hall
    cases hw : goParseUint 16 8 w with
    | error e0 => rw [hw] at hall; simp [isOkE] at hall
    | ok u =>
      simp only [flashTokLoop, hw]
      exact ih _ hall.2

/-- The flash content loop stops at the first malformed token in reading
order: clean lines pass through, the first bad token of the first bad line
is the reported failure. -/
theorem flashLoop_error_at (lpre : List (List Char)) :
    ∀ acc line lrest tpre v tpost e,
      (∀ l ∈ lpre,
        (goSplit ' ' (goTrimSpace l)).all (fun w => isOkE (goParseUint 16 8 w)) = true) →
      goSplit ' ' (goTrimSpace line) = tpre ++ v :: tpost →
      tpre.all (fun w => isOkE (goParseUint 16 8 w)) = true →
      goParseUint 16 8 v = .error e →
      flashLoop acc (lpre ++ line :: lrest) = .error (.numError e) := by
  induction lpre with
  | nil =>
    intro acc line lrest tpre v tpost e _ hline htpre hv
    simp only [List.nil_append, flashLoop, hline,
      flashTokLoop_error_at tpre acc v tpost e htpre hv]
  | cons l ls ih =>
    intro acc line lrest tpre v tpost e hclean hline htpre hv
    have hl := hclean l (List.mem_cons_self _ _)
    have hok := flashTokLoop_ok _ acc hl
    cases hres : flashTokLoop acc (goSplit ' ' (goTrimSpace l)) with
    | error e0 => rw [hres] at hok; simp [isOkE] at hok
    | ok acc2 =>
      simp only [List.cons_append, flashLoop, hres]
      exact ih _ _ _ _ _ _ _ (fun x hx => hclean x (List.mem_cons_of_mem _ hx)) hline htpre hv

/-- The field index counter of the parser advances by one per field. -/
theorem parserFold_idx (rows : List ((List Char → Except NumError Nat) × List Char)) :
    ∀ acc : List Nat × PState,
      (rows.foldl pFoldStep acc).2.idx = acc.2.idx + rows.length := by
  induction rows with
  | nil => intro acc; simp
  | cons p ps ih =>
    intro acc
    simp only [List.foldl_cons, ih]
    unfold pFoldStep pStep
    cases p.1 p.2 <;> simp <;> omega

/-- Fields that parse cleanly leave the recorded error and error index of
the parser untouched. -/
theorem parserFold_err_of_all_ok
    (rows : List ((List Char → Except NumError Nat) × List Char)) :
    ∀ acc : List Nat × PState, rows.all (fun p => isOkE (p.1 p.2)) = true →
      (rows.foldl pFoldStep acc).2.errIdx = acc.2.errIdx ∧
      (rows.foldl pFoldStep acc).2.err = acc.2.err := by
  induction rows with
  | nil => intro acc _; exact ⟨rfl, rfl⟩
  | cons p ps ih =>
    intro acc hall
    simp only [List.all_cons, Bool.and_eq_true] at hall
    cases hp : p.1 p.2 with
    | error e0 => rw [hp] at hall; simp [isOkE] at hall
    | ok v =>
      simp only [List.foldl_cons]
      have := ih (pFoldStep acc p) hall.2
      rw [this.1, this.2]
      unfold pFoldStep pStep
      rw [hp]
      exact ⟨rfl, rfl⟩

/-- Claim C8, counterexample.  First part: the board decoder fails on the
malformed hex field `xx` at field index 1, but the error it returns is the
bare strconv failure whose rendered message contains no digit at all — it
cannot name the offending field index.  Second part: the parser used by the
client refresh-buffer decoder, run over a row whose fields at indices 0 AND
1 are both malformed, records error index 1 and the index-1 failure — the
last malformed field, not the first. -/
theorem c8_counterexample :
    parseBoard ("pico_w xx 11 22 33 44 55 66 77").data =
      .error (.numError ⟨"ParseUint", "xx".data, .synErr⟩) ∧
    (numErrMessage ⟨"ParseUint", "xx".data, .synErr⟩).all (fun c => !c.isDigit) = true ∧
    (parserRun [(goParseUint 10 8, "x".data), (goParseUint 10 8, "y".data)]).2.errIdx = 1 ∧
    (parserRun [(goParseUint 10 8, "x".data), (goParseUint 10 8, "y".data)]).2.err =
      some ⟨"ParseUint", "y".data, .synErr⟩ := by
  refine ⟨by rfl, by decide, by rfl, by rfl⟩

/-- Claim C8, amended.  All three decoders fail on a malformed token and
surface the underlying strconv parse failure.  The board decoder (first
conjunct) and the flash decoder (second conjunct) fail fast on the first
malformed token in reading order but return the bare strconv error, which
names the offending literal and not its field index.  The parser-based
refresh-buffer decoder (third conjunct) does record a field index together
with the wrapped failure, but it is the index and error of the LAST
malformed field of the row — every clean parse after a failure leaves the
recording in place, every later failure overwrites it. -/
theorem c8_decode_errors :
    (∀ (s : List Char) (t v : List Char) (pre post : List (List Char)) (e : NumError),
      goSplit ' ' s = t :: (pre ++ v :: post) →
      (goSplit ' ' s).length = 9 →
      pre.all (fun w => isOkE (goParseUint 16 8 w)) = true →
      goParseUint 16 8 v = .error e →
      parseBoard s = .error (.numError e)) ∧
    (∀ (hdr a b c : List Char) (r1 r2 r3 : Nat) (lpre lrest : List (List Char))
        (line v : List Char) (tpre tpost : List (List Char)) (e : NumError),
      goSplit ' ' hdr = [a, b, c] →
      goParseUint 10 0 a = .ok r1 → goParseUint 10 0 b = .ok r2 →
      goParseUint 10 0 c = .ok r3 →
      (∀ l ∈ lpre,
        (goSplit ' ' (goTrimSpace l)).all (fun w => isOkE (goParseUint 16 8 w)) = true) →
      goSplit ' ' (goTrimSpace line) = tpre ++ v :: tpost →
      tpre.all (fun w => isOkE (goParseUint 16 8 w)) = true →
      goParseUint 16 8 v = .error e →
      flashParse (hdr :: (lpre ++ line :: lrest)) = .error (.numError e)) ∧
    (∀ (row1 row2 : List ((List Char → Except NumError Nat) × List Char))
        (f : List Char → Except NumError Nat) (v : List Char) (e : NumError),
      f v = .error e →
      row2.all (fun p => isOkE (p.1 p.2)) = true →
      (parserRun (row1 ++ (f, v) :: row2)).2.errIdx = row1.length ∧
      (parserRun (row1 ++ (f, v) :: row2)).2.err = some e) := by
  refine ⟨?_, ?_, ?_⟩
  · intro s t v pre post e hsplit hlen hpre hv
    have hlen2 : (t :: (pre ++ v :: post)).length = 9 := by rw [← hsplit]; exact hlen
    simp only [parseBoard]
    rw [hsplit, if_pos hlen2, List.tail_cons,
      boardIdLoop_error_at pre 56 0 v post e hpre hv]
  · intro hdr a b c r1 r2 r3 lpre lrest line v tpre tpost e hhdr ha hb hc hclean hline htpre hv
    simp only [flashParse, hhdr, ha, hb, hc,
      flashLoop_error_at lpre [] line lrest tpre v tpost e hclean hline htpre hv]
  · intro row1 row2 f v e hv hrow2
    have key : parserRun (row1 ++ (f, v) :: row2) =
        row2.foldl pFoldStep (pFoldStep (row1.foldl pFoldStep ([], pInit)) (f, v)) := by
      unfold parserRun
      rw [List.foldl_append, List.foldl_cons]
    have hidx : (List.foldl pFoldStep (([], pInit) : List Nat × PState) row1).2.idx =
        row1.length := by
      rw [parserFold_idx]
      simp [pInit]
    have hmid : (pFoldStep (List.foldl pFoldStep ([], pInit) row1) (f, v)).2 =
        ⟨row1.length + 1, row1.length, some e⟩ := by
      simp [pFoldStep, pStep, hv, hidx]
    have hfin := parserFold_err_of_all_ok row2
      (pFoldStep (List.foldl pFoldStep ([], pInit) row1) (f, v)) hrow2
    rw [key]
    refine ⟨?_, ?_⟩
    · rw [hfin.1, hmid]
    · rw [hfin.2, hmid]

/-- Claim C8 witness: the three amended conjuncts instantiated at concrete
payloads — the board payload with bad hex field `xx` at index 1, a flash
payload whose second content line has bad token `zz` after one good token,
and a parser row with a bad field at index 0 followed by a clean field. -/
theorem c8_witness :
    parseBoard ("pico_w xx 11 22 33 44 55 66 77").data =
      .error (.numError ⟨"ParseUint", "xx".data, .synErr⟩) ∧
    flashParse ["1 2 3".data, "aa bb".data, "cc zz dd".data] =
      .error (.numError ⟨"ParseUint", "zz".data, .synErr⟩) ∧
    (parserRun [(goParseUint 10 8, "w".data), (goParseUint 10 8, "7".data)]).2.errIdx = 0 ∧
    (parserRun [(goParseUint 10 8, "w".data), (goParseUint 10 8, "7".data)]).2.err =
      some ⟨"ParseUint", "w".data, .synErr⟩ := by
  refine ⟨?_, ?_, ?_, ?_⟩
  · exact c8_decode_errors.1 ("pico_w xx 11 22 33 44 55 66 77").data "pico_w".data
      "xx".data [] ["11".data, "22".data, "33".data, "44".data, "55".data,
        "66".data, "77".data] ⟨"ParseUint", "xx".data, .synErr⟩
      (by rfl) (by rfl) (by rfl) (by rfl)
  · exact c8_decode_errors.2.1 "1 2 3".data "1".data "2".data "3".data 1 2 3
      ["aa bb".data] [] "cc zz dd".data "zz".data ["cc".data] ["dd".data]
      ⟨"ParseUint", "zz".data, .synErr⟩
      (by rfl) (by rfl) (by rfl) (by rfl) (by decide) (by rfl) (by rfl) (by rfl)
  · exact (c8_decode_errors.2.2 [] [(goParseUint 10 8, "7".data)]
      (goParseUint 10 8) "w".data ⟨"ParseUint", "w".data, .synErr⟩
      (by rfl) (by rfl)).1
  · exact (c8_decode_errors.2.2 [] [(goParseUint 10 8, "7".data)]
      (goParseUint 10 8) "w".data ⟨"ParseUint", "w".data, .synErr⟩
      (by rfl) (by rfl)).2

/-! ## client.go: `Client.call` under concurrent callers

`Client.call` takes `c.mu.Lock()`, runs `c.write` (a sequence of buffered
byte writes followed by a flush) and then `c.read` (a receive from the
reply channel), and unlocks.  The device consumes flushed command lines in
order and answers each with exactly one reply; the reader goroutine
forwards replies FIFO onto the reply channel (capacity 1).  This is
modelled as a small-step transition system over all interleavings of `n`
callers, each issuing one command whose bytes are given by `cmd`.  Each
reply is tagged with the caller whose command produced it, so that
correlation is a provable property rather than an assumption.  The
five-second read timeout is real-time behaviour and is not part of the
model. -/

/-- The progress of one caller through `Client.call`: not yet started,
inside the exclusive section having buffered `k` command bytes, flushed and
waiting on the reply channel, or finished holding the reply produced for
the command of caller `j`. -/
inductive Phase (n : Nat) where
  | idle
  | locked (k : Nat)
  | written
  | done (j : Fin n)
  deriving DecidableEq, Repr

/-- Whether a caller is inside `Client.call` between `Lock` and the receive
(a command of this caller is in flight). -/
def Phase.isActive : Phase n → Bool
  | .locked _ => true
  | .written => true
  | _ => false

/-- Global state: mutex holder, per-caller phase, the transport byte log
(each byte tagged by its writer), the device queue of flushed commands not
yet answered, the reply channel content, the replies delivered so far, and
the order in which commands finished writing. -/
structure Sys (n : Nat) where
  holder : Option (Fin n)
  phase : Fin n → Phase n
  wire : List (Fin n × Nat)
  pending : List (Fin n)
  replyCh : List (Fin n)
  delivered : List (Fin n)
  writeOrder : List (Fin n)

/-- The initial state: mutex free, every caller idle, nothing written. -/
def Sys.init (n : Nat) : Sys n :=
  ⟨none, fun _ => .idle, [], [], [], [], []⟩

/-- Pointwise phase update. -/
def updPhase (ph : Fin n → Phase n) (i : Fin n) (p : Phase n) : Fin n → Phase n :=
  fun j => if j = i then p else ph j

/-- One interleaved step of the system: a caller acquires the free mutex; the
mutex holder buffers the next byte of its command; the holder flushes its
complete command line to the device; the device answers the oldest flushed
command on the empty capacity-one reply channel; the holder receives the
reply at the channel head; a finished holder releases the mutex. -/
inductive Step (n : Nat) (cmd : Fin n → List Nat) : Sys n → Sys n → Prop where
  | lock (s : Sys n) (i : Fin n) :
      s.holder = none → s.phase i = .idle →
      Step n cmd s { s with holder := some i, phase := updPhase s.phase i (.locked 0) }
  | writeByte (s : Sys n) (i : Fin n) (k b : Nat) :
      s.holder = some i → s.phase i = .locked k → (cmd i).get? k = some b →
      Step n cmd s { s with wire := s.wire ++ [(i, b)],
                            phase := updPhase s.phase i (.locked (k + 1)) }
  | flush (s : Sys n) (i : Fin n) :
      s.holder = some i → s.phase i = .locked (cmd i).length →
      Step n cmd s { s with phase := updPhase s.phase i .written,
                            writeOrder := s.writeOrder ++ [i],
                            pending := s.pending ++ [i] }
  | deviceReply (s : Sys n) (j : Fin n) (rest : List (Fin n)) :
      s.pending = j :: rest → s.replyCh = [] →
      Step n cmd s { s with pending := rest, replyCh := [j] }
  | recv (s : Sys n) (i j : Fin n) (rest : List (Fin n)) :
      s.holder = some i → s.phase i = .written → s.replyCh = j :: rest →
      Step n cmd s { s with phase := updPhase s.phase i (.done j),
                            replyCh := rest,
                            delivered := s.delivered ++ [j] }
  | unlock (s : Sys n) (i j : Fin n) :
      s.holder = some i → s.phase i = .done j →
      Step n cmd s { s with holder := none }

/-- States reachable from the initial state by any interleaving. -/
def Reachable (n : Nat) (cmd : Fin n → List Nat) (s : Sys n) : Prop :=
  Relation.ReflTransGen (Step n cmd) (Sys.init n) s

/-- The contiguous byte block of one command, tagged with its writer. -/
def cmdBlock (cmd : Fin n → List Nat) (j : Fin n) : List (Fin n × Nat) :=
  (cmd j).map (fun b => (j, b))

/-- The wire content corresponding to a sequence of completed commands:
their byte blocks, whole and in order. -/
def flatWire (cmd : Fin n → List Nat) (wo : List (Fin n)) : List (Fin n × Nat) :=
  (wo.map (cmdBlock cmd)).flatten

/-- The bytes a caller in a given phase has buffered but not completed:
a partial block while locked, nothing otherwise. -/
def curBlock (cmd : Fin n → List Nat) : Phase n → Fin n → List (Fin n × Nat)
  | .locked k, h => ((cmd h).take k).map (fun b => (h, b))
  | _, _ => []

/-- The partially-written block of the current mutex holder, if it is
mid-write. -/
def curWire (cmd : Fin n → List Nat) (s : Sys n) : List (Fin n × Nat) :=
  match s.holder with
  | none => []
  | some h => curBlock cmd (s.phase h) h

@[simp] theorem updPhase_same (ph : Fin n → Phase n) (i : Fin n) (p : Phase n) :
    updPhase ph i p i = p := by
  simp [updPhase]

theorem updPhase_of_ne (ph : Fin n → Phase n) {i j : Fin n} (p : Phase n) (h : j ≠ i) :
    updPhase ph i p j = ph j := by
  simp [updPhase, h]

theorem take_succ_of_get? {α : Type} :
    ∀ (l : List α) (k : Nat) (b : α), l.get? k = some b → l.take (k + 1) = l.take k ++ [b]
  | [], k, b, h => by simp at h
  | x :: xs, 0, b, h => by
    simp at h
    subst h
    rfl
  | x :: xs, k + 1, b, h => by
    simp only [List.get?_cons_succ] at h
    simp only [List.take_succ_cons, take_succ_of_get? xs k b h]
    rfl

theorem flatWire_concat (cmd : Fin n → List Nat) (wo : List (Fin n)) (i : Fin n) :
    flatWire cmd (wo ++ [i]) = flatWire cmd wo ++ cmdBlock cmd i := by
  simp [flatWire]

theorem curWire_none (cmd : Fin n → List Nat) (s : Sys n) (h : s.holder = none) :
    curWire cmd s = [] := by
  unfold curWire
  rw [h]

theorem curWire_holder (cmd : Fin n → List Nat) (s : Sys n) (i : Fin n)
    (h1 : s.holder = some i) :
    curWire cmd s = curBlock cmd (s.phase i) i := by
  unfold curWire
  rw [h1]

theorem curWire_locked (cmd : Fin n → List Nat) (s : Sys n) (i : Fin n) (k : Nat)
    (h1 : s.holder = some i) (h2 : s.phase i = .locked k) :
    curWire cmd s = ((cmd i).take k).map (fun b => (i, b)) := by
  rw [curWire_holder cmd s i h1, h2]
  rfl

theorem curWire_written (cmd : Fin n → List Nat) (s : Sys n) (i : Fin n)
    (h1 : s.holder = some i) (h2 : s.phase i = .written) :
    curWire cmd s = [] := by
  rw [curWire_holder cmd s i h1, h2]
  rfl

theorem curWire_done (cmd : Fin n → List Nat) (s : Sys n) (i j : Fin n)
    (h1 : s.holder = some i) (h2 : s.phase i = .done j) :
    curWire cmd s = [] := by
  rw [curWire_holder cmd s i h1, h2]
  rfl

/-- The inductive invariant of the system: mutual exclusion for active
callers, the wire decomposition into whole command blocks plus the holder
partial block, the conservation of the command queue through the pipeline,
the phase of queued commands, uniqueness and terminality of completed
writes, and self-correlation of received replies. -/
structure Inv (n : Nat) (cmd : Fin n → List Nat) (s : Sys n) : Prop where
  excl : ∀ i : Fin n, (s.phase i).isActive = true → s.holder = some i
  wireEq : s.wire = flatWire cmd s.writeOrder ++ curWire cmd s
  queueEq : s.writeOrder = s.delivered ++ s.replyCh ++ s.pending
  queuePhase : ∀ j : Fin n, j ∈ s.replyCh ++ s.pending → s.phase j = .written
  woNodup : s.writeOrder.Nodup
  woPhase : ∀ j : Fin n, j ∈ s.writeOrder →
    (s.phase j = .written ∨ ∃ t, s.phase j = .done t)
  doneOwn : ∀ i j : Fin n, s.phase i = .done j → j = i

theorem inv_init (n : Nat) (cmd : Fin n → List Nat) : Inv n cmd (Sys.init n) := by
  refine ⟨?_, ?_, ?_, ?_, ?_, ?_, ?_⟩ <;>
    simp [Sys.init, flatWire, curWire, Phase.isActive]

theorem inv_step {n : Nat} {cmd : Fin n → List Nat} {s s2 : Sys n}
    (hs : Inv n cmd s) (h : Step n cmd s s2) : Inv n cmd s2 := by
  cases h with
  | lock i hnone hidle =>
    refine ⟨?_, ?_, hs.queueEq, ?_, hs.woNodup, ?_, ?_⟩
    · dsimp only
      intro m hm
      by_cases hmi : m = i
      · subst hmi; rfl
      · rw [updPhase_of_ne _ _ hmi] at hm
        have h1 := hs.excl m hm
        rw [hnone] at h1
        exact absurd h1 (by simp)
    · have h2 : curWire cmd
          { s with holder := some i, phase := updPhase s.phase i (.locked 0) } = [] := by
        rw [curWire_holder cmd _ i rfl]
        dsimp only
        rw [updPhase_same]
        rfl
      dsimp only
      rw [h2, List.append_nil, hs.wireEq, curWire_none cmd s hnone, List.append_nil]
    · dsimp only
      intro m hm
      have hphi := hs.queuePhase m hm
      by_cases hmi : m = i
      · subst hmi; rw [hphi] at hidle; exact absurd hidle (by simp)
      · rw [updPhase_of_ne _ _ hmi]
        exact hphi
    · dsimp only
      intro m hm
      have hphi := hs.woPhase m hm
      by_cases hmi : m = i
      · subst hmi
        rcases hphi with h' | ⟨t, h'⟩ <;> simp [h'] at hidle
      · rw [updPhase_of_ne _ _ hmi]
        exact hphi
    · dsimp only
      intro a b hab
      by_cases hai : a = i
      · subst hai; rw [updPhase_same] at hab; exact absurd hab (by simp)
      · rw [updPhase_of_ne _ _ hai] at hab
        exact hs.doneOwn a b hab
  | writeByte i k b hold hph hget =>
    refine ⟨?_, ?_, hs.queueEq, ?_, hs.woNodup, ?_, ?_⟩
    · dsimp only
      intro m hm
      by_cases hmi : m = i
      · subst hmi; exact hold
      · rw [updPhase_of_ne _ _ hmi] at hm
        exact hs.excl m hm
    · have hcw : curWire cmd
          { s with wire := s.wire ++ [(i, b)],
                   phase := updPhase s.phase i (.locked (k + 1)) } =
          ((cmd i).take (k + 1)).map (fun x => (i, x)) := by
        rw [curWire_holder cmd
          { s with wire := s.wire ++ [(i, b)],
                   phase := updPhase s.phase i (.locked (k + 1)) } i hold]
        dsimp only
        rw [updPhase_same]
        rfl
      dsimp only
      rw [hcw, take_succ_of_get? (cmd i) k b hget, hs.wireEq,
        curWire_locked cmd s i k hold hph]
      simp [List.append_assoc]
    · dsimp only
      intro m hm
      have hphi := hs.queuePhase m hm
      by_cases hmi : m = i
      · subst hmi; rw [hphi] at hph; exact absurd hph (by simp)
      · rw [updPhase_of_ne _ _ hmi]
        exact hphi
    · dsimp only
      intro m hm
      have hphi := hs.woPhase m hm
      by_cases hmi : m = i
      · subst hmi
        rcases hphi with h' | ⟨t, h'⟩ <;> simp [h'] at hph
      · rw [updPhase_of_ne _ _ hmi]
        exact hphi
    · dsimp only
      intro a b2 hab
      by_cases hai : a = i
      · subst hai; rw [updPhase_same] at hab; exact absurd hab (by simp)
      · rw [updPhase_of_ne _ _ hai] at hab
        exact hs.doneOwn a b2 hab
  | flush i hold hph =>
    have hiwo : i ∉ s.writeOrder := by
      intro hmem
      rcases hs.woPhase i hmem with h' | ⟨t, h'⟩ <;> simp [h'] at hph
    have hiq : i ∉ s.replyCh ++ s.pending := by
      intro hmem
      have h1 := hs.queuePhase i hmem
      rw [h1] at hph
      exact absurd hph (by simp)
    refine ⟨?_, ?_, ?_, ?_, ?_, ?_, ?_⟩
    · dsimp only
      intro m hm
      by_cases hmi : m = i
      · subst hmi; exact hold
      · rw [updPhase_of_ne _ _ hmi] at hm
        exact hs.excl m hm
    · have hcw : curWire cmd
          { s with phase := updPhase s.phase i .written,
                   writeOrder := s.writeOrder ++ [i],
                   pending := s.pending ++ [i] } = [] := by
        rw [curWire_holder cmd
          { s with phase := updPhase s.phase i .written,
                   writeOrder := s.writeOrder ++ [i],
                   pending := s.pending ++ [i] } i hold]
        dsimp only
        rw [updPhase_same]
        rfl
      dsimp only
      rw [hcw, List.append_nil, flatWire_concat, hs.wireEq,
        curWire_locked cmd s i (cmd i).length hold hph]
      simp [cmdBlock]
    · dsimp only
      rw [hs.queueEq]
      simp [List.append_assoc]
    · dsimp only
      intro m hm
      rcases List.mem_append.mp hm with hm1 | hm2
      · have hmi : m ≠ i := fun e =>
          hiq (e ▸ List.mem_append_left s.pending hm1)
        rw [updPhase_of_ne _ _ hmi]
        exact hs.queuePhase m (List.mem_append_left _ hm1)
      · rcases List.mem_append.mp hm2 with hm3 | hm4
        · have hmi : m ≠ i := fun e =>
            hiq (e ▸ List.mem_append_right s.replyCh hm3)
          rw [updPhase_of_ne _ _ hmi]
          exact hs.queuePhase m (List.mem_append_right _ hm3)
        · have hmi : m = i := by simpa using hm4
          subst hmi
          rw [updPhase_same]
    · dsimp only
      refine List.nodup_append.mpr ⟨hs.woNodup, List.nodup_singleton i, ?_⟩
      intro a ha hb
      have h1 : a = i := by simpa using hb
      exact hiwo (h1 ▸ ha)
    · dsimp only
      intro m hm
      rcases List.mem_append.mp hm with hm1 | hm2
      · have hmi : m ≠ i := fun e => hiwo (e ▸ hm1)
        rw [updPhase_of_ne _ _ hmi]
        exact hs.woPhase m hm1
      · have hmi : m = i := by simpa using hm2
        subst hmi
        rw [updPhase_same]
        exact Or.inl rfl
    · dsimp only
      intro a b2 hab
      by_cases hai : a = i
      · subst hai; rw [updPhase_same] at hab; exact absurd hab (by simp)
      · rw [updPhase_of_ne _ _ hai] at hab
        exact hs.doneOwn a b2 hab
  | deviceReply j rest hpend hempty =>
    refine ⟨hs.excl, hs.wireEq, ?_, ?_, hs.woNodup, hs.woPhase, hs.doneOwn⟩
    · dsimp only
      rw [hs.queueEq, hempty, hpend]
      simp
    · dsimp only
      intro m hm
      refine hs.queuePhase m ?_
      rw [hempty, hpend]
      simpa using hm
  | recv i j rest hold hph hch =>
    have hji : j = i := by
      have hjq : j ∈ s.replyCh ++ s.pending := by
        rw [hch]
        exact List.mem_append_left _ (List.mem_cons_self _ _)
      have hjw := hs.queuePhase j hjq
      have h1 := hs.excl j (by rw [hjw]; rfl)
      rw [hold] at h1
      exact (Option.some.inj h1).symm
    subst hji
    have hnod : j ∉ rest ++ s.pending := by
      have h1 := hs.woNodup
      rw [hs.queueEq, hch, List.append_assoc] at h1
      have h2 := (List.nodup_append.mp h1).2.1
      rw [List.cons_append] at h2
      exact (List.nodup_cons.mp h2).1
    refine ⟨?_, ?_, ?_, ?_, hs.woNodup, ?_, ?_⟩
    · dsimp only
      intro m hm
      by_cases hmi : m = j
      · subst hmi; rw [updPhase_same] at hm
        exact absurd hm (by simp [Phase.isActive])
      · rw [updPhase_of_ne _ _ hmi] at hm
        exact hs.excl m hm
    · have hcw : curWire cmd
          { s with phase := updPhase s.phase j (.done j),
                   replyCh := rest,
                   delivered := s.delivered ++ [j] } = [] := by
        rw [curWire_holder cmd
          { s with phase := updPhase s.phase j (.done j),
                   replyCh := rest,
                   delivered := s.delivered ++ [j] } j hold]
        dsimp only
        rw [updPhase_same]
        rfl
      dsimp only
      rw [hcw, List.append_nil, hs.wireEq, curWire_written cmd s j hold hph,
        List.append_nil]
    · dsimp only
      rw [hs.queueEq, hch]
      simp [List.append_assoc]
    · dsimp only
      intro m hm
      have hmi : m ≠ j := fun e => hnod (e ▸ hm)
      rw [updPhase_of_ne _ _ hmi]
      refine hs.queuePhase m ?_
      rw [hch]
      rcases List.mem_append.mp hm with hm1 | hm2
      · exact List.mem_append_left _ (List.mem_cons_of_mem _ hm1)
      · exact List.mem_append_right _ hm2
    · dsimp only
      intro m hm
      by_cases hmi : m = j
      · subst hmi
        rw [updPhase_same]
        exact Or.inr ⟨m, rfl⟩
      · rw [updPhase_of_ne _ _ hmi]
        exact hs.woPhase m hm
    · dsimp only
      intro a b2 hab
      by_cases hai : a = j
      · subst hai
        rw [updPhase_same] at hab
        cases hab
        rfl
      · rw [updPhase_of_ne _ _ hai] at hab
        exact hs.doneOwn a b2 hab
  | unlock i j hold hph =>
    refine ⟨?_, ?_, hs.queueEq, hs.queuePhase, hs.woNodup, hs.woPhase, hs.doneOwn⟩
    · dsimp only
      intro m hm
      have h1 := hs.excl m hm
      rw [hold] at h1
      have hmi : m = i := (Option.some.inj h1).symm
      subst hmi
      rw [hph] at hm
      exact absurd hm (by simp [Phase.isActive])
    · dsimp only
      rw [curWire_none cmd { s with holder := none } rfl, List.append_nil, hs.wireEq,
        curWire_done cmd s i j hold hph, List.append_nil]

theorem inv_reachable {n : Nat} {cmd : Fin n → List Nat} {s : Sys n}
    (h : Reachable n cmd s) : Inv n cmd s := by
  induction h with
  | refl => exact inv_init n cmd
  | tail _ hstep ih => exact inv_step ih hstep

/-- Claim C9: in every state reachable by any interleaving of concurrent
callers, (1) at most one caller is inside the exclusive section, so at most
one command is in flight; (2) the transport log is exactly the byte blocks
of the completed commands, whole and in write order, followed only by the
partial block of the current holder — transport writes are never
interleaved; (3) every completed caller holds the reply produced for its
own command; (4) replies are delivered in exactly the order the commands
were written.  The five-second read timeout of `Client.read` is real-time
behaviour outside this model. -/
theorem c9_single_flight_ordering {n : Nat} {cmd : Fin n → List Nat} {s : Sys n}
    (h : Reachable n cmd s) :
    (∀ i j : Fin n, (s.phase i).isActive = true → (s.phase j).isActive = true → i = j) ∧
    s.wire = flatWire cmd s.writeOrder ++ curWire cmd s ∧
    (∀ i j : Fin n, s.phase i = .done j → j = i) ∧
    (∃ rest, s.delivered ++ rest = s.writeOrder) := by
  have hinv := inv_reachable h
  refine ⟨?_, hinv.wireEq, hinv.doneOwn, ⟨s.replyCh ++ s.pending, ?_⟩⟩
  · intro i j hi hj
    have h1 := hinv.excl i hi
    have h2 := hinv.excl j hj
    rw [h1] at h2
    exact Option.some.inj h2
  · rw [hinv.queueEq]
    simp [List.append_assoc]

/-- Claim C9 witness: the reachability hypothesis discharged at the initial
state of two callers with the one-byte command `+` (43). -/
theorem c9_witness :
    (Sys.init 2).wire =
      flatWire (fun _ => [43]) (Sys.init 2).writeOrder ++
        curWire (fun _ => [43]) (Sys.init 2) :=
  (c9_single_flight_ordering (Relation.ReflTransGen.refl)).2.1

end PicoCs
